import Mathlib

/-! BarNone, `flamingo.cpp`: the edit distance and the `WrapperSimpleEd` binding.

A shallow embedding of `src/flamingo.cpp`.

* `std::string` is a list of bytes, `vector<unsigned int>` a list of naturals.
* `unsigned int` arithmetic is arithmetic modulo `2 ^ 32`; `size_t` arithmetic is
  arithmetic modulo `2 ^ 64` (LP64).
* Every `for` loop is a recursive function that takes one unit of fuel per
  evaluation of its loop condition; `none` means that the fuel ran out.  A call
  *returns* `v` when some amount of fuel yields `some v`, and *diverges* when no
  amount of fuel yields a value.
-/

namespace Flamingo

/-- The contents of a `std::string`. -/
abbrev CppString := List UInt8

/-- Modulus of `unsigned int` arithmetic. -/
def UINT_MOD : Nat := 2 ^ 32

/-- Modulus of `size_t` arithmetic. -/
def SIZE_MOD : Nat := 2 ^ 64

/-! ## `levenshtein_distance` (flamingo.cpp, lines 97-111) -/

/-- Line 101-102: `for (unsigned int i = 0; i < prevCol.size(); i++) prevCol[i] = i;`
started at counter `i`. -/
def initLoop : Nat → Nat → List Nat → Option (List Nat)
  | 0, _, _ => none
  | fuel + 1, i, prevCol =>
    if i < prevCol.length then
      initLoop fuel ((i + 1) % UINT_MOD) (prevCol.set i i)
    else
      some prevCol

/-- Lines 105-107: the loop over `j`, started at counter `j`, in iteration `i` of the
outer loop.  It writes `col` and only reads `prevCol`. -/
def innerLoop (s1 s2 : CppString) (i : Nat) (prevCol : List Nat) :
    Nat → Nat → List Nat → Option (List Nat)
  | 0, _, _ => none
  | fuel + 1, j, col =>
    if j < s2.length then
      innerLoop s1 s2 i prevCol fuel ((j + 1) % UINT_MOD)
        (col.set ((j + 1) % UINT_MOD)
          (min (min ((1 + col.getD j 0) % UINT_MOD)
                    ((1 + prevCol.getD ((1 + j) % UINT_MOD) 0) % UINT_MOD))
               ((prevCol.getD j 0 + (if s1.getD i 0 = s2.getD j 0 then 0 else 1)) % UINT_MOD)))
    else
      some col

/-- Lines 103-109: the loop over `i`, started at counter `i`; `n` is the fuel handed to
each run of the loop over `j`.  The result is the pair `(col, prevCol)` at loop exit. -/
def outerLoop (s1 s2 : CppString) (n : Nat) :
    Nat → Nat → List Nat → List Nat → Option (List Nat × List Nat)
  | 0, _, _, _ => none
  | fuel + 1, i, col, prevCol =>
    if i < s1.length then
      match innerLoop s1 s2 i prevCol n 0 (col.set 0 ((i + 1) % UINT_MOD)) with
      | none => none
      | some col1 => outerLoop s1 s2 n fuel ((i + 1) % UINT_MOD) prevCol col1
    else
      some (col, prevCol)

/-- The function `levenshtein_distance(s1, s2)`: every loop may evaluate its condition at
most `fuel` times. -/
def levenshtein_distance (fuel : Nat) (s1 s2 : CppString) : Option Nat :=
  let len2 := s2.length
  let col := List.replicate ((len2 + 1) % SIZE_MOD) 0
  let prevCol := List.replicate ((len2 + 1) % SIZE_MOD) 0
  match initLoop fuel 0 prevCol with
  | none => none
  | some prevCol0 =>
    match outerLoop s1 s2 fuel fuel 0 col prevCol0 with
    | none => none
    | some (_, prevColN) => some (prevColN.getD len2 0)

/-- The call `levenshtein_distance(s1, s2)` returns `v`. -/
def Returns (s1 s2 : CppString) (v : Nat) : Prop :=
  ∃ fuel, levenshtein_distance fuel s1 s2 = some v

/-- The call `levenshtein_distance(s1, s2)` never returns. -/
def Diverges (s1 s2 : CppString) : Prop :=
  ∀ fuel, levenshtein_distance fuel s1 s2 = none

/-! ## The recurrence of the dynamic programme -/

/-- One row of the recurrence: `f` is the row for the shorter first string. -/
def levRow {α : Type} [DecidableEq α] (x : α) (f : List α → Nat) : List α → Nat
  | [] => f [] + 1
  | y :: b =>
    min (min (1 + levRow x f b) (1 + f (y :: b))) (f b + (if x = y then 0 else 1))

/-- The recurrence computed by the two rolling rows, on whole strings. -/
def lev {α : Type} [DecidableEq α] : List α → List α → Nat
  | [] => List.length
  | x :: a => levRow x (lev a)

/-! ## Edit scripts: the wording of the specification -/

/-- One single-character edit: the insertion of `c`, the deletion of `c`, or the
substitution of a different character `d` for `c`, between `l` and `r`. -/
inductive EditStep {α : Type} : List α → List α → Prop
  | ins (l r : List α) (c : α) : EditStep (l ++ r) (l ++ c :: r)
  | del (l r : List α) (c : α) : EditStep (l ++ c :: r) (l ++ r)
  | sub (l r : List α) (c d : α) (h : c ≠ d) : EditStep (l ++ c :: r) (l ++ d :: r)

/-- `Transforms n a b`: some sequence of exactly `n` single-character edits, each of
cost 1, transforms `a` into `b`. -/
inductive Transforms {α : Type} : Nat → List α → List α → Prop
  | refl (a : List α) : Transforms 0 a a
  | step {n : Nat} {a b c : List α} :
      Transforms n a b → EditStep b c → Transforms (n + 1) a c

/-- `d` is the Levenshtein distance of `a` and `b`: the minimum number of single-character
insertions, deletions or substitutions that transform `a` into `b`. -/
def IsLevenshteinDistance {α : Type} (a b : List α) (d : Nat) : Prop :=
  Transforms d a b ∧ ∀ n, Transforms n a b → d ≤ n

/-- The bytes of "flaw". -/
def flaw : CppString := [102, 108, 97, 119]

/-- The bytes of "lawn". -/
def lawn : CppString := [108, 97, 119, 110]

/-- Entry `(i, j)` of the matrix of the dynamic programme: the recurrence on the first `i`
characters of `s1` and the first `j` characters of `s2`. -/
def dp (s1 s2 : CppString) (i j : Nat) : Nat :=
  lev (s1.take i).reverse (s2.take j).reverse

/-- The string of `2 ^ 32 - 1` bytes "a". -/
def giant : CppString := List.replicate (2 ^ 32 - 1) 97

/-! ## The binding: Python objects and the Flamingo library interface -/

/-- A Python object, as far as the binding inspects it: a `str` with its bytes; a number,
given by the finite C `float` value `x` that format `f` of `PyArg_ParseTuple` stores for
it (the rounding of the Python number to a `float` is floating-point arithmetic and is
not part of the embedding); a list; or anything else. -/
inductive PyObj where
  | str (bytes : CppString)
  | num (x : ℚ)
  | list (items : List PyObj)
  | other

/-- How a call of a function of the binding ends. -/
inductive Outcome (α : Type) where
  /-- The function returned this value. -/
  | ret (a : α)
  /-- Undefined behaviour in C++: a null pointer was dereferenced. -/
  | undefined
  /-- A loop was still running when the fuel ran out. -/
  | outOfFuel

/-- The result of `WrapperSimpleEd_search`: the null pointer, or a Python list whose
slots are null or hold a `str`. -/
inductive PyResult where
  | null
  | list (slots : List (Option CppString))

/-- The classes of the Flamingo library that the binding uses (`GramGenFixedLen`,
`StringContainerVector`, `WrapperSimpleEd`, declared in the headers included at lines
18-19); their code is not part of `flamingo.cpp`, so each call is a parameter. -/
structure FlamingoLib where
  GramGen : Type
  Container : Type
  Index : Type
  /-- Constructor `GramGenFixedLen(q)`. -/
  newGramGen : Nat → GramGen
  /-- Constructor `StringContainerVector(flag)`. -/
  newContainer : Bool → Container
  /-- Method `initStatsCollector(gramGen)`. -/
  initStatsCollector : Container → GramGen → Container
  /-- Method `fillContainer(begin, end)`. -/
  fillContainer : Container → List CppString → Container
  /-- Constructor `WrapperSimpleEd(strContainer, gramGen, flag)`. -/
  newIndex : Container → GramGen → Bool → Index
  /-- Method `buildIndex()`. -/
  buildIndex : Index → Index
  /-- Method `search(query, editDistance, resultStringIDs)`: the ids it stores. -/
  search : Index → CppString → ℚ → List Nat
  /-- Method `retrieveString(tmp, id)`: the string it stores in `tmp`. -/
  retrieveString : Container → Nat → CppString

/-- The struct `flamingo_WrapperSimpleEd` (lines 24-29) after `PyObject_HEAD`: three
pointers, `none` for the null pointer. -/
structure flamingo_WrapperSimpleEd (L : FlamingoLib) where
  gramGen : Option L.GramGen
  strContainer : Option L.Container
  index : Option L.Index

/-- The object as `PyType_GenericNew` leaves it: all pointers null. -/
def newObject (L : FlamingoLib) : flamingo_WrapperSimpleEd L :=
  ⟨none, none, none⟩

/-- `PyArg_ParseTuple(args, "O!", &PyList_Type, &listObj)`: exactly one argument, which
is a list. -/
def parseListArg : List PyObj → Option (List PyObj)
  | [PyObj.list items] => some items
  | _ => none

/-- `PyArg_ParseTuple(args, "sf", &query, &editDistance)`: a `str` without NUL bytes and
a number; `editDistance` receives the C `float` value of the number. -/
def parseQueryArgs : List PyObj → Option (CppString × ℚ)
  | [PyObj.str s, PyObj.num x] => if (0 : UInt8) ∈ s then none else some (s, x)
  | _ => none

/-- Conversion of a non-negative `Py_ssize_t` to `int` (32 bits, two's complement): the
low 32 bits, read as a signed number. -/
def toInt32 (n : Nat) : Int :=
  if n % 2 ^ 32 < 2 ^ 31 then ((n % 2 ^ 32 : Nat) : Int)
  else ((n % 2 ^ 32 : Nat) : Int) - 2 ^ 32

/-- `PyString_AsString`: the bytes of a `str`, the null pointer for any other object. -/
def PyString_AsString : PyObj → Option CppString
  | PyObj.str s => some s
  | _ => none

/-- The `std::string` built from a `const char *`, and the `str` built by
`Py_BuildValue("s", ...)`: the bytes before the first NUL. -/
def cstring (s : CppString) : CppString :=
  s.takeWhile (fun c => c ≠ 0)

/-- Lines 54-58: `barcodes.push_back(PyString_AsString(item))` for each item; `none` when
an item is not a `str`, as `std::string` is then built from the null pointer. -/
def collectBarcodes : List PyObj → Option (List CppString)
  | [] => some []
  | o :: rest =>
    match PyString_AsString o, collectBarcodes rest with
    | some line, some barcodes => some (cstring line :: barcodes)
    | _, _ => none

/-- `PyArg_ParseTuple(args, "ss", &c1, &c2)`: two `str` without NUL bytes. -/
def parseTwoStrings : List PyObj → Option (CppString × CppString)
  | [PyObj.str a, PyObj.str b] =>
    if (0 : UInt8) ∈ a ∨ (0 : UInt8) ∈ b then none else some (a, b)
  | _ => none

/-- The function `flamingo_distance` (lines 114-125): the null pointer (`none`) when the
arguments do not parse, else the Python integer holding the value of
`levenshtein_distance`. -/
def flamingo_distance (fuel : Nat) (args : List PyObj) : Outcome (Option Nat) :=
  match parseTwoStrings args with
  | none => Outcome.ret none
  | some (c1, c2) =>
    match levenshtein_distance fuel (cstring c1) (cstring c2) with
    | none => Outcome.outOfFuel
    | some d => Outcome.ret (some d)

/-- The function `WrapperSimpleEd_init` (lines 32-68): the `int` it returns and the object
it leaves.  `return NULL` in this function returning `int` returns `0`. -/
def WrapperSimpleEd_init (L : FlamingoLib) (self : flamingo_WrapperSimpleEd L)
    (args : List PyObj) : Outcome (Int × flamingo_WrapperSimpleEd L) :=
  match parseListArg args with
  | none => Outcome.ret (0, self)
  | some items =>
    let numLines : Int := toInt32 items.length
    if numLines < 0 then Outcome.ret (0, self)
    else
      match collectBarcodes (items.take numLines.toNat) with
      | none => Outcome.undefined
      | some barcodes =>
        let gramGen := L.newGramGen 2
        let strContainer :=
          L.fillContainer (L.initStatsCollector (L.newContainer true) gramGen) barcodes
        let index := L.buildIndex (L.newIndex strContainer gramGen true)
        Outcome.ret (0, ⟨some gramGen, some strContainer, some index⟩)

/-- Lines 81-84: the loop that fills the result list, started at counter `i`. -/
def materializeLoop (L : FlamingoLib) (strContainer : Option L.Container)
    (resultStringIDs : List Nat) :
    Nat → Nat → List (Option CppString) → Outcome (List (Option CppString))
  | 0, _, _ => Outcome.outOfFuel
  | fuel + 1, i, ret =>
    if i < resultStringIDs.length then
      match strContainer with
      | none => Outcome.undefined
      | some c =>
        let tmp := L.retrieveString c (resultStringIDs.getD i 0)
        materializeLoop L strContainer resultStringIDs fuel ((i + 1) % UINT_MOD)
          (ret.set i (some (cstring tmp)))
    else
      Outcome.ret ret

/-- The function `WrapperSimpleEd_search` (lines 70-86). -/
def WrapperSimpleEd_search (L : FlamingoLib) (fuel : Nat)
    (self : flamingo_WrapperSimpleEd L) (args : List PyObj) : Outcome PyResult :=
  match parseQueryArgs args with
  | none => Outcome.ret PyResult.null
  | some (query, editDistance) =>
    match self.index with
    | none => Outcome.undefined
    | some index =>
      let resultStringIDs := L.search index query editDistance
      match materializeLoop L self.strContainer resultStringIDs fuel 0
          (List.replicate resultStringIDs.length none) with
      | Outcome.ret ret => Outcome.ret (PyResult.list ret)
      | Outcome.undefined => Outcome.undefined
      | Outcome.outOfFuel => Outcome.outOfFuel

/-! ## The Flamingo library, modelled from the specification -/

/-- Modelled from the spec: a character of a padded string (section 3, Gram), missing with
the Flamingo library: a byte, or `none` for the sentinel, which is not a byte of any
input. -/
abbrev GramChar := Option UInt8

/-- Modelled from the spec: a gram (section 3), missing with the Flamingo library: a
contiguous substring of a padded string. -/
abbrev Gram := List GramChar

/-- Modelled from the spec: a posting list (section 3), missing with the Flamingo library:
pairs `(stringId, occurrenceCount)`. -/
abbrev PostingList := List (Nat × Nat)

/-- Modelled from the spec: the contiguous length-`q` substrings that section 4.1 lets
the gram generator emit, missing with the Flamingo library: every contiguous sublist of
length `q`, in left-to-right order. -/
def windows {α : Type} (q : Nat) : List α → List (List α)
  | [] => []
  | x :: xs => (if q ≤ xs.length + 1 then [(x :: xs).take q] else []) ++ windows q xs

/-- Modelled from the spec: the Gram Generator (class `GramGenFixedLen` of the Flamingo
library, whose code is not in `flamingo.cpp`), with its gram length `q`. -/
structure GramGenFixedLen where
  q : Nat

/-- Modelled from the spec: `generate(text, q)` of section 4.1, missing with the class
`GramGenFixedLen`.  It pads `text` with `q - 1` sentinel characters on each side and emits
every contiguous length-`q` substring of the padded text in left-to-right order. -/
def GramGenFixedLen.generate (gen : GramGenFixedLen) (text : CppString) : List Gram :=
  windows gen.q
    (List.replicate (gen.q - 1) none ++ text.map some ++ List.replicate (gen.q - 1) none)

/-- Modelled from the spec: the String Container (class `StringContainerVector`, not in
`flamingo.cpp`): the strings in load order, the identifier of a string being its
position. -/
structure StringContainerVector where
  strings : List CppString

/-- Modelled from the spec: `load` of section 4.2 (method `fillContainer`), which assigns
identifiers in input order.  The rejection policy of section 4.2 is left out: line 63
calls `fillContainer` as a statement and inspects no result. -/
def StringContainerVector.fillContainer (c : StringContainerVector)
    (strs : List CppString) : StringContainerVector :=
  ⟨c.strings ++ strs⟩

/-- Modelled from the spec: `retrieve(id)` of section 4.2 (method `retrieveString`); the
empty string stands for the out-of-range failure. -/
def StringContainerVector.retrieveString (c : StringContainerVector) (id : Nat) :
    CppString :=
  c.strings.getD id []

/-- Modelled from the spec: the posting list of gram `g` (section 4.3), missing with the
class `WrapperSimpleEd`: one entry `(stringId, countInThatString)` for each string in
which `g` occurs, identifiers counted from `id`. -/
def postingsFrom (gen : GramGenFixedLen) (g : Gram) : Nat → List CppString → PostingList
  | _, [] => []
  | id, s :: rest =>
    if (gen.generate s).count g = 0 then postingsFrom gen g (id + 1) rest
    else (id, (gen.generate s).count g) :: postingsFrom gen g (id + 1) rest

/-- Modelled from the spec: the Gram Index and Search Engine (class `WrapperSimpleEd` of
the Flamingo library, not in `flamingo.cpp`): the container, the gram generator and the
mapping from gram value to posting list. -/
structure WrapperSimpleEd where
  strContainer : StringContainerVector
  gramGen : GramGenFixedLen
  postingsFor : Gram → PostingList

/-- Modelled from the spec: `build(container, q)` of section 4.3 (method `buildIndex`). -/
def WrapperSimpleEd.buildIndex (w : WrapperSimpleEd) : WrapperSimpleEd :=
  { w with postingsFor := fun g => postingsFrom w.gramGen g 0 w.strContainer.strings }

/-- Modelled from the spec: the shared-gram count of step 2 of section 4.5, missing with
`WrapperSimpleEd::search`.  For each gram value of the query grams `Q` the posting list is
looked up, and the candidate `id` accumulates, for each posting list that holds it, the
minimum of the two multiplicities. -/
def WrapperSimpleEd.sharedCount (w : WrapperSimpleEd) (Q : List Gram) (id : Nat) : Nat :=
  (Q.dedup.map (fun g =>
    match (w.postingsFor g).lookup id with
    | some c => min (Q.count g) c
    | none => 0)).sum

/-- Modelled from the spec: step 3 of section 4.5, the count-filter lower bound
`g - t * q` clamped at `0`, for `g` query grams and the threshold floored to `t`. -/
def WrapperSimpleEd.countBound (w : WrapperSimpleEd) (Q : List Gram) (threshold : ℚ) :
    Nat :=
  ((Q.length : ℤ) - ⌊threshold⌋ * (w.gramGen.q : ℤ)).toNat

/-- Modelled from the spec: the candidates of step 2 of section 4.5, missing with
`WrapperSimpleEd::search`: the string identifiers that occur in the posting list of some
gram of the query grams `Q`, each once. -/
def WrapperSimpleEd.candidates (w : WrapperSimpleEd) (Q : List Gram) : List Nat :=
  (Q.dedup.flatMap (fun g => (w.postingsFor g).map Prod.fst)).dedup

/-- Modelled from the spec: `search` of section 4.5 (method `WrapperSimpleEd::search`, not
in `flamingo.cpp`).  The candidates are taken from the posting lists of the query grams
(step 2); candidates whose shared-gram count is below the count bound are pruned (step 3);
the survivors are verified with the edit distance (step 4); the matches are returned in
ascending identifier order (step 5). -/
def WrapperSimpleEd.search (w : WrapperSimpleEd) (query : CppString) (threshold : ℚ) :
    List Nat :=
  let Q := w.gramGen.generate query
  List.insertionSort (fun a b => a ≤ b)
    ((w.candidates Q).filter (fun id =>
      decide (w.countBound Q threshold ≤ w.sharedCount Q id) &&
      decide ((lev (w.strContainer.retrieveString id) query : ℚ) ≤ threshold)))

/-- Modelled from the spec: the three library classes of sections 4.1-4.5, standing for
the Flamingo library that `flamingo.cpp` links against. -/
def specLib : FlamingoLib where
  GramGen := GramGenFixedLen
  Container := StringContainerVector
  Index := WrapperSimpleEd
  newGramGen := fun q => ⟨q⟩
  newContainer := fun _ => ⟨[]⟩
  initStatsCollector := fun c _ => c
  fillContainer := StringContainerVector.fillContainer
  newIndex := fun c gen _ => ⟨c, gen, fun _ => []⟩
  buildIndex := WrapperSimpleEd.buildIndex
  search := WrapperSimpleEd.search
  retrieveString := StringContainerVector.retrieveString

/-- The bytes of "kitten". -/
def kitten : CppString := [107, 105, 116, 116, 101, 110]

/-- The bytes of "sitting". -/
def sitting : CppString := [115, 105, 116, 116, 105, 110, 103]

/-- The bytes of "bitten". -/
def bitten : CppString := [98, 105, 116, 116, 101, 110]

/-- The bytes of "smitten". -/
def smitten : CppString := [115, 109, 105, 116, 116, 101, 110]

/-- The corpus of the example of section 8 of the specification. -/
def kittenCorpus : List CppString := [kitten, sitting, bitten, smitten]

/-- The object that `WrapperSimpleEd_init` leaves for `kittenCorpus` with `specLib`. -/
def kittenObject : flamingo_WrapperSimpleEd specLib :=
  ⟨some ⟨2⟩, some ⟨kittenCorpus⟩,
    some (WrapperSimpleEd.buildIndex ⟨⟨kittenCorpus⟩, ⟨2⟩, fun _ => []⟩)⟩

/-- The index of `kittenObject`. -/
def kittenIndex : WrapperSimpleEd :=
  WrapperSimpleEd.buildIndex ⟨⟨kittenCorpus⟩, ⟨2⟩, fun _ => []⟩

section Recurrence

variable {α : Type} [DecidableEq α]

theorem lev_nil_left (b : List α) : lev [] b = b.length := rfl

theorem lev_nil_right (a : List α) : lev a [] = a.length := by
  induction a with
  | nil => rfl
  | cons x a ih => simp [lev, levRow] at ih ⊢; exact ih

theorem lev_cons_cons (x y : α) (a b : List α) :
    lev (x :: a) (y :: b) =
      min (min (1 + lev (x :: a) b) (1 + lev a (y :: b)))
        (lev a b + (if x = y then 0 else 1)) := rfl

theorem lev_cons_cons_le_ins (x y : α) (a b : List α) :
    lev (x :: a) (y :: b) ≤ 1 + lev (x :: a) b := by
  rw [lev_cons_cons]; exact le_trans (min_le_left _ _) (min_le_left _ _)

theorem lev_cons_cons_le_del (x y : α) (a b : List α) :
    lev (x :: a) (y :: b) ≤ 1 + lev a (y :: b) := by
  rw [lev_cons_cons]; exact le_trans (min_le_left _ _) (min_le_right _ _)

theorem lev_cons_cons_le_sub (x y : α) (a b : List α) :
    lev (x :: a) (y :: b) ≤ lev a b + 1 := by
  rw [lev_cons_cons]
  refine le_trans (min_le_right _ _) ?_
  split <;> omega

theorem lev_cons_cons_le_diag (x y : α) (a b : List α) :
    lev (x :: a) (y :: b) ≤ lev a b + (if x = y then 0 else 1) := by
  rw [lev_cons_cons]; exact min_le_right _ _

/-- Lower bounds on the three candidates give a lower bound on the minimum. -/
theorem le_lev_cons_cons (x y : α) (a b : List α) (k : Nat)
    (h1 : k ≤ 1 + lev (x :: a) b) (h2 : k ≤ 1 + lev a (y :: b))
    (h3 : k ≤ lev a b + (if x = y then 0 else 1)) : k ≤ lev (x :: a) (y :: b) := by
  rw [lev_cons_cons]; exact le_min (le_min h1 h2) h3

theorem lev_cons_left_le (x : α) (a b : List α) : lev (x :: a) b ≤ lev a b + 1 := by
  cases b with
  | nil => simp [lev_nil_right]
  | cons y b => have := lev_cons_cons_le_del x y a b; omega

theorem lev_cons_right_le (y : α) (a b : List α) : lev a (y :: b) ≤ lev a b + 1 := by
  cases a with
  | nil => simp [lev_nil_left]
  | cons x a => have := lev_cons_cons_le_ins x y a b; omega

theorem lev_le_max (a b : List α) : lev a b ≤ max a.length b.length := by
  induction a generalizing b with
  | nil => simp [lev_nil_left]
  | cons x a ih =>
    cases b with
    | nil => simp [lev_nil_right]
    | cons y b =>
      have h1 := lev_cons_cons_le_sub x y a b
      have h2 := ih b
      simp only [List.length_cons]
      omega

theorem lev_self (a : List α) : lev a a = 0 := by
  induction a with
  | nil => rfl
  | cons x a ih =>
    have := lev_cons_cons_le_diag x x a a
    simp [ih] at this
    exact this

end Recurrence

/-! ## Edit scripts against the recurrence -/

section Scripts

variable {α : Type}

theorem editStep_cons (x : α) {a b : List α} (h : EditStep a b) :
    EditStep (x :: a) (x :: b) := by
  cases h with
  | ins l r c => exact EditStep.ins (x :: l) r c
  | del l r c => exact EditStep.del (x :: l) r c
  | sub l r c d h => exact EditStep.sub (x :: l) r c d h

theorem editStep_symm {a b : List α} (h : EditStep a b) : EditStep b a := by
  cases h with
  | ins l r c => exact EditStep.del l r c
  | del l r c => exact EditStep.ins l r c
  | sub l r c d h => exact EditStep.sub l r d c (Ne.symm h)

theorem editStep_reverse {a b : List α} (h : EditStep a b) :
    EditStep a.reverse b.reverse := by
  cases h with
  | ins l r c =>
    simpa [List.reverse_append, List.reverse_cons, List.append_assoc] using
      EditStep.ins r.reverse l.reverse c
  | del l r c =>
    simpa [List.reverse_append, List.reverse_cons, List.append_assoc] using
      EditStep.del r.reverse l.reverse c
  | sub l r c d h =>
    simpa [List.reverse_append, List.reverse_cons, List.append_assoc] using
      EditStep.sub r.reverse l.reverse c d h

theorem transforms_single {a b : List α} (h : EditStep a b) : Transforms 1 a b :=
  Transforms.step (Transforms.refl a) h

theorem transforms_trans {n m : Nat} {a b c : List α}
    (h1 : Transforms n a b) (h2 : Transforms m b c) : Transforms (n + m) a c := by
  induction h2 with
  | refl => exact h1
  | step _ hs ih => exact Transforms.step (ih h1) hs

theorem transforms_cons (x : α) {n : Nat} {a b : List α} (h : Transforms n a b) :
    Transforms n (x :: a) (x :: b) := by
  induction h with
  | refl => exact Transforms.refl _
  | step _ hs ih => exact Transforms.step ih (editStep_cons x hs)

theorem transforms_head {n : Nat} {a b c : List α}
    (hs : EditStep a b) (h : Transforms n b c) : Transforms (n + 1) a c := by
  have := transforms_trans (transforms_single hs) h
  rwa [Nat.add_comm] at this

theorem transforms_symm {n : Nat} {a b : List α} (h : Transforms n a b) :
    Transforms n b a := by
  induction h with
  | refl => exact Transforms.refl _
  | step _ hs ih => exact transforms_head (editStep_symm hs) ih

theorem transforms_reverse {n : Nat} {a b : List α} (h : Transforms n a b) :
    Transforms n a.reverse b.reverse := by
  induction h with
  | refl => exact Transforms.refl _
  | step _ hs ih => exact Transforms.step ih (editStep_reverse hs)

theorem transforms_eq_of_zero {a b : List α} (h : Transforms 0 a b) : a = b := by
  cases h; rfl

/-- Inserting the characters of `b` one at a time. -/
theorem transforms_of_nil (b : List α) : Transforms b.length [] b := by
  induction b with
  | nil => exact Transforms.refl _
  | cons y b ih => exact Transforms.step ih (EditStep.ins [] b y)

/-- Deleting the characters of `a` one at a time. -/
theorem transforms_to_nil (a : List α) : Transforms a.length a [] :=
  transforms_symm (transforms_of_nil a)

variable [DecidableEq α]

/-- A step under a common first character moves the recurrence by at most one. -/
theorem lev_cons_congr {b c : List α} (y : α)
    (h : ∀ a : List α, lev a c ≤ lev a b + 1) (a : List α) :
    lev a (y :: c) ≤ lev a (y :: b) + 1 := by
  induction a with
  | nil =>
    have := h []
    simp only [lev_nil_left, List.length_cons] at this ⊢
    omega
  | cons x a ih =>
    have hgoal : lev (x :: a) (y :: c) ≤ lev (x :: a) (y :: b) + 1 := by
      have e1 := lev_cons_cons_le_ins x y a c
      have e2 := lev_cons_cons_le_del x y a c
      have e3 := lev_cons_cons_le_diag x y a c
      have k1 := h (x :: a)
      have k3 := h a
      have hk : lev (x :: a) (y :: c) - 1 ≤ lev (x :: a) (y :: b) := by
        apply le_lev_cons_cons <;> omega
      omega
    exact hgoal

theorem lev_ins_head (a r : List α) (c : α) : lev a (c :: r) ≤ lev a r + 1 :=
  lev_cons_right_le c a r

theorem lev_del_head (a r : List α) (c : α) : lev a r ≤ lev a (c :: r) + 1 := by
  induction a with
  | nil => simp only [lev_nil_left, List.length_cons]; omega
  | cons x a ih =>
    have e := lev_cons_left_le x a r
    have hk : lev (x :: a) r - 1 ≤ lev (x :: a) (c :: r) := by
      apply le_lev_cons_cons
      · omega
      · omega
      · omega
    omega

theorem lev_sub_head (a r : List α) (c d : α) : lev a (d :: r) ≤ lev a (c :: r) + 1 := by
  induction a with
  | nil => simp [lev_nil_left]
  | cons x a ih =>
    have e1 := lev_cons_cons_le_ins x d a r
    have e2 := lev_cons_cons_le_del x d a r
    have e3 := lev_cons_cons_le_sub x d a r
    have hk : lev (x :: a) (d :: r) - 1 ≤ lev (x :: a) (c :: r) := by
      apply le_lev_cons_cons <;> omega
    omega

/-- One edit of the second string moves the recurrence by at most one. -/
theorem lev_step_le {b c : List α} (h : EditStep b c) (a : List α) :
    lev a c ≤ lev a b + 1 := by
  cases h with
  | ins l r x =>
    induction l generalizing a with
    | nil => exact lev_ins_head a r x
    | cons y l ih => exact lev_cons_congr y (fun a => ih a) a
  | del l r x =>
    induction l generalizing a with
    | nil => exact lev_del_head a r x
    | cons y l ih => exact lev_cons_congr y (fun a => ih a) a
  | sub l r x z _ =>
    induction l generalizing a with
    | nil => exact lev_sub_head a r x z
    | cons y l ih => exact lev_cons_congr y (fun a => ih a) a

/-- No edit script is shorter than the value of the recurrence. -/
theorem lev_le_of_transforms {n : Nat} {a b : List α} (h : Transforms n a b) :
    lev a b ≤ n := by
  induction h with
  | refl => simp [lev_self]
  | @step n a b c _ hs ih => have := lev_step_le hs a; omega

/-- The recurrence is the length of some edit script. -/
theorem transforms_lev (a b : List α) : Transforms (lev a b) a b := by
  induction a generalizing b with
  | nil => exact transforms_of_nil b
  | cons x a iha =>
    induction b with
    | nil => rw [lev_nil_right]; exact transforms_to_nil _
    | cons y b ihb =>
      rw [lev_cons_cons]
      rcases min_choice (min (1 + lev (x :: a) b) (1 + lev a (y :: b)))
          (lev a b + (if x = y then 0 else 1)) with h | h
      · rw [h]
        rcases min_choice (1 + lev (x :: a) b) (1 + lev a (y :: b)) with h2 | h2
        · rw [h2, Nat.add_comm]
          exact Transforms.step ihb (EditStep.ins [] b y)
        · rw [h2, Nat.add_comm]
          exact transforms_head (EditStep.del [] a x) (iha (y :: b))
      · rw [h]
        by_cases hxy : x = y
        · subst hxy
          simpa using transforms_cons x (iha b)
        · simp only [hxy, if_false]
          exact Transforms.step (transforms_cons x (iha b)) (EditStep.sub [] b x y hxy)

theorem lev_isLevenshteinDistance (a b : List α) : IsLevenshteinDistance a b (lev a b) :=
  ⟨transforms_lev a b, fun _ h => lev_le_of_transforms h⟩

theorem lev_symm (a b : List α) : lev a b = lev b a :=
  Nat.le_antisymm (lev_le_of_transforms (transforms_symm (transforms_lev b a)))
    (lev_le_of_transforms (transforms_symm (transforms_lev a b)))

theorem lev_triangle (a b c : List α) : lev a c ≤ lev a b + lev b c :=
  lev_le_of_transforms (transforms_trans (transforms_lev a b) (transforms_lev b c))

theorem eq_of_lev_eq_zero {a b : List α} (h : lev a b = 0) : a = b := by
  have := transforms_lev a b
  rw [h] at this
  exact transforms_eq_of_zero this

theorem lev_reverse (a b : List α) : lev a.reverse b.reverse = lev a b := by
  apply Nat.le_antisymm
  · exact lev_le_of_transforms (transforms_reverse (transforms_lev a b))
  · have := lev_le_of_transforms (transforms_reverse (transforms_lev a.reverse b.reverse))
    simpa using this

end Scripts

/-! ## Fuel: more fuel never changes a result -/

section Fuel

theorem UINT_MOD_eq : UINT_MOD = 4294967296 := by norm_num [UINT_MOD]

theorem SIZE_MOD_eq : SIZE_MOD = 18446744073709551616 := by norm_num [SIZE_MOD]

theorem initLoop_succ {fuel i : Nat} {p r : List Nat}
    (h : initLoop fuel i p = some r) : initLoop (fuel + 1) i p = some r := by
  induction fuel generalizing i p with
  | zero => simp [initLoop] at h
  | succ fuel ih =>
    rw [initLoop] at h ⊢
    split
    · rename_i hlt
      rw [if_pos hlt] at h
      exact ih h
    · rename_i hlt
      rw [if_neg hlt] at h
      exact h

theorem initLoop_mono {fuel fuel1 i : Nat} {p r : List Nat}
    (h : initLoop fuel i p = some r) (hle : fuel ≤ fuel1) :
    initLoop fuel1 i p = some r := by
  induction hle with
  | refl => exact h
  | step _ ih => exact initLoop_succ ih

theorem innerLoop_succ {s1 s2 : CppString} {i : Nat} {prevCol : List Nat}
    {fuel j : Nat} {col r : List Nat}
    (h : innerLoop s1 s2 i prevCol fuel j col = some r) :
    innerLoop s1 s2 i prevCol (fuel + 1) j col = some r := by
  induction fuel generalizing j col with
  | zero => simp [innerLoop] at h
  | succ fuel ih =>
    rw [innerLoop] at h ⊢
    split
    · rename_i hlt
      rw [if_pos hlt] at h
      exact ih h
    · rename_i hlt
      rw [if_neg hlt] at h
      exact h

theorem innerLoop_mono {s1 s2 : CppString} {i : Nat} {prevCol : List Nat}
    {fuel fuel1 j : Nat} {col r : List Nat}
    (h : innerLoop s1 s2 i prevCol fuel j col = some r) (hle : fuel ≤ fuel1) :
    innerLoop s1 s2 i prevCol fuel1 j col = some r := by
  induction hle with
  | refl => exact h
  | step _ ih => exact innerLoop_succ ih

theorem outerLoop_mono {s1 s2 : CppString} {n n1 fuel fuel1 i : Nat}
    {col prevCol : List Nat} {r : List Nat × List Nat}
    (h : outerLoop s1 s2 n fuel i col prevCol = some r)
    (hn : n ≤ n1) (hle : fuel ≤ fuel1) :
    outerLoop s1 s2 n1 fuel1 i col prevCol = some r := by
  induction fuel generalizing fuel1 i col prevCol with
  | zero => simp [outerLoop] at h
  | succ fuel ih =>
    obtain ⟨f1, rfl⟩ : ∃ f1, fuel1 = f1 + 1 := ⟨fuel1 - 1, by omega⟩
    rw [outerLoop] at h ⊢
    by_cases hlt : i < s1.length
    · rw [if_pos hlt] at h ⊢
      cases hin : innerLoop s1 s2 i prevCol n 0 (col.set 0 ((i + 1) % UINT_MOD)) with
      | none => rw [hin] at h; simp at h
      | some col1 =>
        rw [hin] at h
        rw [innerLoop_mono hin hn]
        exact ih h (by omega)
    · rw [if_neg hlt] at h ⊢
      exact h

theorem levenshtein_distance_mono {fuel fuel1 : Nat} {s1 s2 : CppString} {v : Nat}
    (h : levenshtein_distance fuel s1 s2 = some v) (hle : fuel ≤ fuel1) :
    levenshtein_distance fuel1 s1 s2 = some v := by
  unfold levenshtein_distance at h ⊢
  simp only at h ⊢
  cases hi : initLoop fuel 0 (List.replicate ((s2.length + 1) % SIZE_MOD) 0) with
  | none => rw [hi] at h; simp at h
  | some p0 =>
    rw [hi] at h
    rw [initLoop_mono hi hle]
    simp only at h ⊢
    cases ho : outerLoop s1 s2 fuel fuel 0
        (List.replicate ((s2.length + 1) % SIZE_MOD) 0) p0 with
    | none => rw [ho] at h; simp at h
    | some r =>
      rw [ho] at h
      rw [outerLoop_mono ho hle hle]
      exact h

/-- The value returned by a call is unique. -/
theorem returns_unique {s1 s2 : CppString} {v w : Nat}
    (hv : Returns s1 s2 v) (hw : Returns s1 s2 w) : v = w := by
  obtain ⟨f, hf⟩ := hv
  obtain ⟨g, hg⟩ := hw
  have h1 := levenshtein_distance_mono hf (Nat.le_max_left f g)
  have h2 := levenshtein_distance_mono hg (Nat.le_max_right f g)
  rw [h1] at h2
  exact Option.some.inj h2

theorem diverges_not_returns {s1 s2 : CppString} (h : Diverges s1 s2) (v : Nat) :
    ¬ Returns s1 s2 v := by
  rintro ⟨f, hf⟩
  rw [h f] at hf
  simp at hf

end Fuel

/-! ## The rolling rows hold the recurrence on prefixes -/

section Rows

theorem getD_set_self {α : Type} {l : List α} {i : Nat} (v d : α) (h : i < l.length) :
    (l.set i v).getD i d = v := by
  simp [List.getD_eq_getElem?_getD, List.getElem?_set, h]

theorem getD_set_of_ne {α : Type} {l : List α} {i j : Nat} (v d : α) (h : i ≠ j) :
    (l.set i v).getD j d = l.getD j d := by
  simp [List.getD_eq_getElem?_getD, List.getElem?_set, h]

theorem reverse_take_succ (s : CppString) {i : Nat} (h : i < s.length) :
    (s.take (i + 1)).reverse = s.getD i 0 :: (s.take i).reverse := by
  rw [List.take_succ, List.getD_eq_getElem?_getD, List.getElem?_eq_getElem h]
  simp

theorem dp_zero_left (s1 s2 : CppString) {j : Nat} (h : j ≤ s2.length) :
    dp s1 s2 0 j = j := by
  simp [dp, lev_nil_left, h]

theorem dp_succ_zero (s1 s2 : CppString) {i : Nat} (h : i < s1.length) :
    dp s1 s2 (i + 1) 0 = i + 1 := by
  simp only [dp, List.take_zero, List.reverse_nil, lev_nil_right, List.length_reverse,
    List.length_take]
  omega

theorem dp_succ_succ (s1 s2 : CppString) {i j : Nat}
    (hi : i < s1.length) (hj : j < s2.length) :
    dp s1 s2 (i + 1) (j + 1) =
      min (min (1 + dp s1 s2 (i + 1) j) (1 + dp s1 s2 i (j + 1)))
        (dp s1 s2 i j + (if s1.getD i 0 = s2.getD j 0 then 0 else 1)) := by
  simp only [dp]
  rw [reverse_take_succ s1 hi, reverse_take_succ s2 hj, lev_cons_cons]

theorem dp_le (s1 s2 : CppString) (i j : Nat) : dp s1 s2 i j ≤ max i j := by
  have h := lev_le_max (s1.take i).reverse (s2.take j).reverse
  simp only [List.length_reverse, List.length_take] at h
  unfold dp
  omega

theorem dp_full (s1 s2 : CppString) : dp s1 s2 s1.length s2.length = lev s1 s2 := by
  simp [dp, lev_reverse]

/-- The first loop fills `prevCol` with row 0. -/
theorem initLoop_spec (L : Nat) (hL : L < UINT_MOD) :
    ∀ (fuel i : Nat) (p : List Nat), p.length = L → i ≤ L → L - i < fuel →
      (∀ k, k < i → p.getD k 0 = k) →
      ∃ r, initLoop fuel i p = some r ∧ r.length = L ∧ ∀ k, k < L → r.getD k 0 = k := by
  intro fuel
  induction fuel with
  | zero => intro i p _ _ hf; omega
  | succ fuel ih =>
    intro i p hp hi hf hinv
    rw [initLoop]
    by_cases hlt : i < p.length
    · rw [if_pos hlt]
      have hmod : (i + 1) % UINT_MOD = i + 1 := Nat.mod_eq_of_lt (by omega)
      rw [hmod]
      apply ih
      · simpa using hp
      · omega
      · omega
      · intro k hk
        by_cases hki : k = i
        · subst hki; exact getD_set_self _ _ hlt
        · rw [getD_set_of_ne _ _ (Ne.symm hki)]
          exact hinv k (by omega)
    · rw [if_neg hlt]
      refine ⟨p, rfl, hp, ?_⟩
      intro k hk
      exact hinv k (by omega)

/-- The loop over `j` completes row `i + 1` in `col`. -/
theorem innerLoop_spec (s1 s2 : CppString) (i : Nat) (prevCol : List Nat)
    (h1 : s1.length < UINT_MOD - 1) (h2 : s2.length < UINT_MOD - 1)
    (hi : i < s1.length) (hp : prevCol.length = s2.length + 1)
    (hprev : ∀ k, k ≤ s2.length → prevCol.getD k 0 = dp s1 s2 i k) :
    ∀ (fuel j : Nat) (col : List Nat), col.length = s2.length + 1 → j ≤ s2.length →
      s2.length - j < fuel →
      (∀ k, k ≤ j → col.getD k 0 = dp s1 s2 (i + 1) k) →
      ∃ r, innerLoop s1 s2 i prevCol fuel j col = some r ∧ r.length = s2.length + 1 ∧
        ∀ k, k ≤ s2.length → r.getD k 0 = dp s1 s2 (i + 1) k := by
  have hU := UINT_MOD_eq
  intro fuel
  induction fuel with
  | zero => intro j col _ _ hf; omega
  | succ fuel ih =>
    intro j col hc hj hf hinv
    rw [innerLoop]
    by_cases hlt : j < s2.length
    · rw [if_pos hlt]
      have hmod : (j + 1) % UINT_MOD = j + 1 := Nat.mod_eq_of_lt (by omega)
      have hmod1 : (1 + j) % UINT_MOD = j + 1 := by rw [Nat.add_comm]; exact hmod
      have b1 := dp_le s1 s2 (i + 1) j
      have b2 := dp_le s1 s2 i (j + 1)
      have b3 := dp_le s1 s2 i j
      have e1 : (1 + col.getD j 0) % UINT_MOD = 1 + dp s1 s2 (i + 1) j := by
        rw [hinv j (le_refl j)]; exact Nat.mod_eq_of_lt (by omega)
      have e2 : (1 + prevCol.getD ((1 + j) % UINT_MOD) 0) % UINT_MOD
          = 1 + dp s1 s2 i (j + 1) := by
        rw [hmod1, hprev (j + 1) (by omega)]; exact Nat.mod_eq_of_lt (by omega)
      have e3 : (prevCol.getD j 0 + (if s1.getD i 0 = s2.getD j 0 then 0 else 1)) % UINT_MOD
          = dp s1 s2 i j + (if s1.getD i 0 = s2.getD j 0 then 0 else 1) := by
        rw [hprev j (by omega)]
        apply Nat.mod_eq_of_lt
        split <;> omega
      rw [e1, e2, e3, ← dp_succ_succ s1 s2 hi hlt, hmod]
      apply ih
      · simpa using hc
      · omega
      · omega
      · intro k hk
        by_cases hkj : k = j + 1
        · subst hkj; exact getD_set_self _ _ (by omega)
        · rw [getD_set_of_ne _ _ (Ne.symm hkj)]
          exact hinv k (by omega)
    · rw [if_neg hlt]
      refine ⟨col, rfl, hc, ?_⟩
      intro k hk
      exact hinv k (by omega)

/-- The loop over `i` leaves the last row in `prevCol`. -/
theorem outerLoop_spec (s1 s2 : CppString) (n : Nat)
    (h1 : s1.length < UINT_MOD - 1) (h2 : s2.length < UINT_MOD - 1)
    (hn : s2.length < n) :
    ∀ (fuel i : Nat) (col prevCol : List Nat), i ≤ s1.length →
      col.length = s2.length + 1 → prevCol.length = s2.length + 1 →
      s1.length - i < fuel →
      (∀ k, k ≤ s2.length → prevCol.getD k 0 = dp s1 s2 i k) →
      ∃ c p, outerLoop s1 s2 n fuel i col prevCol = some (c, p) ∧
        ∀ k, k ≤ s2.length → p.getD k 0 = dp s1 s2 s1.length k := by
  have hU := UINT_MOD_eq
  intro fuel
  induction fuel with
  | zero => intro i col prevCol _ _ _ hf; omega
  | succ fuel ih =>
    intro i col prevCol hi hc hp hf hprev
    rw [outerLoop]
    by_cases hlt : i < s1.length
    · rw [if_pos hlt]
      have hmod : (i + 1) % UINT_MOD = i + 1 := Nat.mod_eq_of_lt (by omega)
      rw [hmod]
      obtain ⟨r, hr, hrl, hrow⟩ := innerLoop_spec s1 s2 i prevCol h1 h2 hlt hp hprev n 0
        (col.set 0 (i + 1)) (by simpa using hc) (Nat.zero_le _) (by omega)
        (by
          intro k hk
          have hk0 : k = 0 := by omega
          subst hk0
          rw [getD_set_self _ _ (by omega), dp_succ_zero s1 s2 hlt])
      rw [hr]
      exact ih (i + 1) prevCol r (by omega) hp hrl (by omega) hrow
    · rw [if_neg hlt]
      have hie : i = s1.length := by omega
      subst hie
      exact ⟨col, prevCol, rfl, hprev⟩

/-- With both lengths below `2 ^ 32 - 1` and enough fuel, the call returns the value of
the recurrence. -/
theorem levenshtein_distance_eq_lev (s1 s2 : CppString) (fuel : Nat)
    (h1 : s1.length < 2 ^ 32 - 1) (h2 : s2.length < 2 ^ 32 - 1)
    (hf : max s1.length (s2.length + 1) < fuel) :
    levenshtein_distance fuel s1 s2 = some (lev s1 s2) := by
  have hU := UINT_MOD_eq
  have hS := SIZE_MOD_eq
  have h1' : s1.length < UINT_MOD - 1 := by omega
  have h2' : s2.length < UINT_MOD - 1 := by omega
  have hsz : (s2.length + 1) % SIZE_MOD = s2.length + 1 := Nat.mod_eq_of_lt (by omega)
  unfold levenshtein_distance
  simp only [hsz]
  obtain ⟨p0, hp0, hp0l, hp0v⟩ := initLoop_spec (s2.length + 1) (by omega) fuel 0
    (List.replicate (s2.length + 1) 0) (by simp) (Nat.zero_le _) (by omega)
    (by intro k hk; omega)
  rw [hp0]
  obtain ⟨c, p, hcp, hrow⟩ := outerLoop_spec s1 s2 fuel h1' h2' (by omega) fuel 0
    (List.replicate (s2.length + 1) 0) p0 (Nat.zero_le _) (by simp) hp0l (by omega)
    (by
      intro k hk
      rw [hp0v k (by omega), dp_zero_left s1 s2 hk])
  simp only [hcp]
  rw [hrow s2.length (le_refl _), dp_full]

theorem returns_lev (s1 s2 : CppString)
    (h1 : s1.length < 2 ^ 32 - 1) (h2 : s2.length < 2 ^ 32 - 1) :
    Returns s1 s2 (lev s1 s2) :=
  ⟨max s1.length (s2.length + 1) + 1,
    levenshtein_distance_eq_lev s1 s2 _ h1 h2 (Nat.lt_succ_self _)⟩

end Rows

/-! ## Strings of `2 ^ 32 - 1` bytes: where the 32-bit counters wrap -/

section Wrap

theorem giant_length : giant.length = 2 ^ 32 - 1 :=
  List.length_replicate _ _

/-- The first loop never ends when the vector has at least `2 ^ 32` entries: the
counter stays below `2 ^ 32`. -/
theorem initLoop_none (fuel i : Nat) (p : List Nat)
    (hp : UINT_MOD ≤ p.length) (hi : i < UINT_MOD) : initLoop fuel i p = none := by
  induction fuel generalizing i p with
  | zero => rfl
  | succ fuel ih =>
    rw [initLoop, if_pos (by omega)]
    apply ih
    · simpa using hp
    · exact Nat.mod_lt _ (by rw [UINT_MOD_eq]; omega)

theorem diverges_of_length_right (s1 s2 : CppString) (h : s2.length = 2 ^ 32 - 1) :
    Diverges s1 s2 := by
  intro fuel
  have hU := UINT_MOD_eq
  have hS := SIZE_MOD_eq
  have hsz : (s2.length + 1) % SIZE_MOD = 4294967296 := by
    rw [h, hS]; norm_num
  unfold levenshtein_distance
  simp only [hsz]
  rw [initLoop_none fuel 0 _ (by rw [List.length_replicate, hU]) (by omega)]

/-- One run of the loop over `j` when the second string has one character. -/
theorem innerLoop_singleton (s1 : CppString) (d : UInt8) (i : Nat) (prevCol col : List Nat)
    (n : Nat) (hn : 2 ≤ n) :
    innerLoop s1 [d] i prevCol n 0 col =
      some (col.set 1
        (min (min ((1 + col.getD 0 0) % UINT_MOD) ((1 + prevCol.getD 1 0) % UINT_MOD))
          ((prevCol.getD 0 0 + (if s1.getD i 0 = d then 0 else 1)) % UINT_MOD))) := by
  obtain ⟨m, rfl⟩ : ∃ m, n = m + 2 := ⟨n - 2, by omega⟩
  have hU := UINT_MOD_eq
  have e1 : (0 + 1) % UINT_MOD = 1 := by rw [hU]
  rw [innerLoop, if_pos (by simp), e1, innerLoop, if_neg (by simp)]
  rfl

/-- One run of the loop over `j` when the second string is empty. -/
theorem innerLoop_nil (s1 : CppString) (i : Nat) (prevCol col : List Nat)
    (n : Nat) (hn : 1 ≤ n) : innerLoop s1 [] i prevCol n 0 col = some col := by
  obtain ⟨m, rfl⟩ : ∃ m, n = m + 1 := ⟨n - 1, by omega⟩
  rw [innerLoop, if_neg (by simp)]

/-- First string of `2 ^ 32 - 1` bytes, second string of one byte: in the last iteration
`col[0]` is `2 ^ 32 - 1`, `1 + col[0]` wraps to `0`, and `0` is stored in `col[1]`. -/
theorem outerLoop_singleton_wrap (s1 : CppString) (d : UInt8) (n : Nat)
    (h1 : s1.length = 2 ^ 32 - 1) (hn : 2 ≤ n) :
    ∀ (fuel i : Nat) (col prevCol : List Nat), i ≤ 2 ^ 32 - 2 →
      col.length = 2 → prevCol.length = 2 → 2 ^ 32 - 1 - i < fuel →
      ∃ c p, outerLoop s1 [d] n fuel i col prevCol = some (c, p) ∧ p.getD 1 0 = 0 := by
  have hU := UINT_MOD_eq
  intro fuel
  induction fuel with
  | zero => intro i col prevCol _ _ _ hf; omega
  | succ fuel ih =>
    intro i col prevCol hi hc hp hf
    rw [outerLoop, if_pos (by omega), innerLoop_singleton s1 d i prevCol _ n hn]
    have hmod : (i + 1) % UINT_MOD = i + 1 := Nat.mod_eq_of_lt (by omega)
    simp only [hmod]
    by_cases hlast : i = 2 ^ 32 - 2
    · obtain ⟨g, rfl⟩ : ∃ g, fuel = g + 1 := ⟨fuel - 1, by omega⟩
      rw [outerLoop, if_neg (by omega)]
      refine ⟨_, _, rfl, ?_⟩
      rw [getD_set_self _ _ (by simp; omega), getD_set_self _ _ (by omega)]
      have hz : (1 + (i + 1)) % UINT_MOD = 0 := by
        rw [hlast, hU]; norm_num
      rw [hz]
      simp
    · exact ih (i + 1) prevCol _ (by omega) hp (by simp; omega) (by omega)

/-- First string of `2 ^ 32 - 1` bytes, second string empty: `prevCol[0]` counts the
iterations. -/
theorem outerLoop_nil_giant (s1 : CppString) (n : Nat)
    (h1 : s1.length = 2 ^ 32 - 1) (hn : 1 ≤ n) :
    ∀ (fuel i : Nat) (col prevCol : List Nat), i ≤ 2 ^ 32 - 1 →
      col.length = 1 → prevCol.length = 1 → 2 ^ 32 - 1 - i < fuel →
      prevCol.getD 0 0 = i →
      ∃ c p, outerLoop s1 [] n fuel i col prevCol = some (c, p) ∧
        p.getD 0 0 = 2 ^ 32 - 1 := by
  have hU := UINT_MOD_eq
  intro fuel
  induction fuel with
  | zero => intro i col prevCol _ _ _ hf; omega
  | succ fuel ih =>
    intro i col prevCol hi hc hp hf hv
    rw [outerLoop]
    by_cases hlt : i < s1.length
    · rw [if_pos hlt, innerLoop_nil s1 i prevCol _ n hn]
      have hmod : (i + 1) % UINT_MOD = i + 1 := Nat.mod_eq_of_lt (by omega)
      simp only [hmod]
      exact ih (i + 1) prevCol _ (by omega) hp (by simpa using hc) (by omega)
        (getD_set_self _ _ (by omega))
    · rw [if_neg hlt]
      refine ⟨col, prevCol, rfl, ?_⟩
      omega

/-- On a first string of `2 ^ 32 - 1` bytes and a second string of one byte the call
returns `0`. -/
theorem returns_zero_of_giant_singleton (s1 : CppString) (d : UInt8)
    (h1 : s1.length = 2 ^ 32 - 1) : Returns s1 [d] 0 := by
  have hU := UINT_MOD_eq
  have hS := SIZE_MOD_eq
  refine ⟨2 ^ 32, ?_⟩
  have hsz : (([d] : CppString).length + 1) % SIZE_MOD = 2 := by
    rw [hS]; rfl
  unfold levenshtein_distance
  simp only [hsz]
  obtain ⟨p0, hp0, hp0l, -⟩ := initLoop_spec 2 (by omega) (2 ^ 32) 0
    (List.replicate 2 0) (by simp) (Nat.zero_le _) (by omega) (by intro k hk; omega)
  rw [hp0]
  obtain ⟨c, p, hcp, hv⟩ := outerLoop_singleton_wrap s1 d (2 ^ 32) h1 (by omega)
    (2 ^ 32) 0 (List.replicate 2 0) p0 (by omega) (by simp) hp0l (by omega)
  simp only [hcp]
  show some (p.getD 1 0) = some 0
  rw [hv]

/-- On a first string of `2 ^ 32 - 1` bytes and an empty second string the call returns
`2 ^ 32 - 1`. -/
theorem returns_of_giant_nil (s1 : CppString) (h1 : s1.length = 2 ^ 32 - 1) :
    Returns s1 [] (2 ^ 32 - 1) := by
  have hU := UINT_MOD_eq
  have hS := SIZE_MOD_eq
  refine ⟨2 ^ 32, ?_⟩
  have hsz : (([] : CppString).length + 1) % SIZE_MOD = 1 := by
    rw [hS]; rfl
  unfold levenshtein_distance
  simp only [hsz]
  obtain ⟨p0, hp0, hp0l, hp0v⟩ := initLoop_spec 1 (by omega) (2 ^ 32) 0
    (List.replicate 1 0) (by simp) (Nat.zero_le _) (by omega) (by intro k hk; omega)
  rw [hp0]
  obtain ⟨c, p, hcp, hv⟩ := outerLoop_nil_giant s1 (2 ^ 32) h1 (by omega)
    (2 ^ 32) 0 (List.replicate 1 0) p0 (by omega) (by simp) hp0l (by omega)
    (hp0v 0 (by omega))
  simp only [hcp]
  show some (p.getD 0 0) = some (2 ^ 32 - 1)
  rw [hv]

end Wrap

/-! ## The edit distance: the claims -/

section Claims

/-- C1: for byte strings `a` and `b` of lengths below `2 ^ 32 - 1`,
`levenshtein_distance(a, b)` returns (with any fuel above both loop bounds) a value `d`
that is the Levenshtein distance of `a` and `b`: some sequence of `d` single-character
insertions, deletions or substitutions transforms `a` into `b`, and no shorter sequence
does. -/
theorem levenshtein_distance_is_levenshtein (a b : CppString)
    (ha : a.length < 2 ^ 32 - 1) (hb : b.length < 2 ^ 32 - 1) :
    ∃ d, (∀ fuel, max a.length (b.length + 1) < fuel →
        levenshtein_distance fuel a b = some d) ∧ IsLevenshteinDistance a b d :=
  ⟨lev a b, fun fuel hf => levenshtein_distance_eq_lev a b fuel ha hb hf,
    lev_isLevenshteinDistance a b⟩

/-- C1 at "flaw" and "lawn": the call returns 2, and 2 is the Levenshtein distance. -/
theorem levenshtein_distance_is_levenshtein_witness :
    flaw.length < 2 ^ 32 - 1 ∧ lawn.length < 2 ^ 32 - 1 ∧
      levenshtein_distance 6 flaw lawn = some 2 ∧ IsLevenshteinDistance flaw lawn 2 := by
  obtain ⟨d, hd, hmin⟩ :=
    levenshtein_distance_is_levenshtein flaw lawn (by decide) (by decide)
  have h6 : levenshtein_distance 6 flaw lawn = some 2 := by decide
  have hd6 := hd 6 (by decide)
  rw [h6] at hd6
  have hd2 : d = 2 := (Option.some.inj hd6).symm
  subst hd2
  exact ⟨by decide, by decide, h6, hmin⟩

/-- C3 as stated fails: with `a` of `2 ^ 32 - 1` bytes "a", `b` the string "b" and `c`
empty, `levenshtein_distance(a, c)`, `levenshtein_distance(a, b)` and
`levenshtein_distance(b, c)` return `2 ^ 32 - 1`, `0` and `1`. -/
theorem triangle_fails_at_giant :
    Returns giant [] (2 ^ 32 - 1) ∧ Returns giant [98] 0 ∧ Returns [98] [] 1 ∧
      ¬ (2 ^ 32 - 1 ≤ 0 + 1) :=
  ⟨returns_of_giant_nil giant giant_length,
    returns_zero_of_giant_singleton giant 98 giant_length,
    ⟨3, by decide⟩, by norm_num⟩

/-- C3, amended: for strings `a`, `b`, `c` of lengths below `2 ^ 32 - 1` the three calls
return values `x = levenshtein_distance(a, c)`, `y = levenshtein_distance(a, b)` and
`z = levenshtein_distance(b, c)` with `x ≤ y + z`. -/
theorem levenshtein_distance_triangle (a b c : CppString)
    (ha : a.length < 2 ^ 32 - 1) (hb : b.length < 2 ^ 32 - 1) (hc : c.length < 2 ^ 32 - 1) :
    ∃ x y z, Returns a c x ∧ Returns a b y ∧ Returns b c z ∧ x ≤ y + z :=
  ⟨lev a c, lev a b, lev b c, returns_lev a c ha hc, returns_lev a b ha hb,
    returns_lev b c hb hc, lev_triangle a b c⟩

/-- The amended C3 at "flaw", "lawn" and the empty string. -/
theorem levenshtein_distance_triangle_witness :
    flaw.length < 2 ^ 32 - 1 ∧ lawn.length < 2 ^ 32 - 1 ∧
      ([] : CppString).length < 2 ^ 32 - 1 ∧
      ∃ x y z, Returns flaw [] x ∧ Returns flaw lawn y ∧ Returns lawn [] z ∧ x ≤ y + z :=
  ⟨by decide, by decide, by decide,
    levenshtein_distance_triangle flaw lawn [] (by decide) (by decide) (by decide)⟩

/-- C4 as stated fails: with `a` of `2 ^ 32 - 1` bytes "a" and `b` empty,
`levenshtein_distance(a, b)` returns `2 ^ 32 - 1` and `levenshtein_distance(b, a)` never
returns. -/
theorem symmetry_fails_at_giant :
    Returns giant [] (2 ^ 32 - 1) ∧ Diverges [] giant :=
  ⟨returns_of_giant_nil giant giant_length, diverges_of_length_right [] giant giant_length⟩

/-- C4, amended: for strings `a`, `b` of lengths below `2 ^ 32 - 1`,
`levenshtein_distance(a, b)` and `levenshtein_distance(b, a)` return the same value. -/
theorem levenshtein_distance_symm (a b : CppString)
    (ha : a.length < 2 ^ 32 - 1) (hb : b.length < 2 ^ 32 - 1) :
    ∃ d, Returns a b d ∧ Returns b a d :=
  ⟨lev a b, returns_lev a b ha hb, by rw [lev_symm a b]; exact returns_lev b a hb ha⟩

/-- The amended C4 at "flaw" and "lawn". -/
theorem levenshtein_distance_symm_witness :
    flaw.length < 2 ^ 32 - 1 ∧ lawn.length < 2 ^ 32 - 1 ∧
      ∃ d, Returns flaw lawn d ∧ Returns lawn flaw d :=
  ⟨by decide, by decide, levenshtein_distance_symm flaw lawn (by decide) (by decide)⟩

/-- C5 as stated fails: for `x` of `2 ^ 32 - 1` bytes "a" the call
`levenshtein_distance(x, x)` never returns. -/
theorem self_distance_fails_at_giant : Diverges giant giant :=
  diverges_of_length_right giant giant giant_length

/-- C5, amended: for every string `x` of length below `2 ^ 32 - 1` (the empty string
included), `levenshtein_distance(x, x)` returns `0`, with any fuel above `x.length + 1`. -/
theorem levenshtein_distance_self (x : CppString) (hx : x.length < 2 ^ 32 - 1)
    (fuel : Nat) (hf : x.length + 1 < fuel) : levenshtein_distance fuel x x = some 0 := by
  rw [levenshtein_distance_eq_lev x x fuel hx hx (by omega), lev_self]

/-- The amended C5 at the empty string and at "flaw". -/
theorem levenshtein_distance_self_witness :
    ([] : CppString).length < 2 ^ 32 - 1 ∧ levenshtein_distance 2 [] [] = some 0 ∧
      flaw.length < 2 ^ 32 - 1 ∧ levenshtein_distance 6 flaw flaw = some 0 :=
  ⟨by decide, levenshtein_distance_self [] (by decide) 2 (by decide),
    by decide, levenshtein_distance_self flaw (by decide) 6 (by decide)⟩

/-- C10 as stated fails: with `a` of `2 ^ 32 - 1` bytes "a" and `b` the string "b" the
call returns `0` although `a` and `b` differ. -/
theorem zero_distance_fails_at_giant : Returns giant [98] 0 ∧ giant ≠ [98] := by
  refine ⟨returns_zero_of_giant_singleton giant 98 giant_length, ?_⟩
  intro h
  have := congrArg List.length h
  rw [giant_length] at this
  norm_num at this

/-- C10, amended: for strings `a`, `b` of lengths below `2 ^ 32 - 1`,
`levenshtein_distance(a, b)` returns, and if it returns `0` then `a = b`. -/
theorem eq_of_levenshtein_distance_zero (a b : CppString)
    (ha : a.length < 2 ^ 32 - 1) (hb : b.length < 2 ^ 32 - 1) :
    (∃ d, Returns a b d) ∧ (Returns a b 0 → a = b) :=
  ⟨⟨lev a b, returns_lev a b ha hb⟩,
    fun h => eq_of_lev_eq_zero (returns_unique (returns_lev a b ha hb) h)⟩

/-- The amended C10 at "flaw" against itself (distance `0`) and against "lawn" (distance
`2`, not `0`). -/
theorem eq_of_levenshtein_distance_zero_witness :
    flaw.length < 2 ^ 32 - 1 ∧ lawn.length < 2 ^ 32 - 1 ∧
      Returns flaw flaw 0 ∧ (Returns flaw flaw 0 → flaw = flaw) ∧
      Returns flaw lawn 2 ∧ (Returns flaw lawn 0 → flaw = lawn) :=
  ⟨by decide, by decide, ⟨6, by decide⟩,
    (eq_of_levenshtein_distance_zero flaw flaw (by decide) (by decide)).2,
    ⟨6, by decide⟩,
    (eq_of_levenshtein_distance_zero flaw lawn (by decide) (by decide)).2⟩

end Claims

/-! ## The binding: `WrapperSimpleEd_init` and `WrapperSimpleEd_search` -/

section Binding

theorem toInt32_of_lt {n : Nat} (h : n < 2 ^ 31) : toInt32 n = n := by
  unfold toInt32
  have hm : n % 2 ^ 32 = n := Nat.mod_eq_of_lt (by omega)
  rw [hm, if_pos h]

theorem toInt32_neg_of_ge {n : Nat} (h1 : 2 ^ 31 ≤ n) (h2 : n < 2 ^ 32) : toInt32 n < 0 := by
  unfold toInt32
  have hm : n % 2 ^ 32 = n := Nat.mod_eq_of_lt h2
  rw [hm, if_neg (by omega)]
  omega

/-- Every `return` of `WrapperSimpleEd_init` returns `0`. -/
theorem WrapperSimpleEd_init_status (L : FlamingoLib) (self : flamingo_WrapperSimpleEd L)
    (args : List PyObj) (status : Int) (h : flamingo_WrapperSimpleEd L)
    (hret : WrapperSimpleEd_init L self args = Outcome.ret (status, h)) : status = 0 := by
  unfold WrapperSimpleEd_init at hret
  cases hp : parseListArg args with
  | none =>
    rw [hp] at hret
    cases hret; rfl
  | some items =>
    rw [hp] at hret
    dsimp only at hret
    by_cases hneg : toInt32 items.length < 0
    · rw [if_pos hneg] at hret
      cases hret; rfl
    · rw [if_neg hneg] at hret
      cases hb : collectBarcodes (items.take (toInt32 items.length).toNat) with
      | none => rw [hb] at hret; cases hret
      | some barcodes => rw [hb] at hret; cases hret; rfl

/-- When the arguments are not a single list, `return NULL` leaves the object untouched
and the `int` returned is `0`. -/
theorem WrapperSimpleEd_init_parse_failure (L : FlamingoLib)
    (self : flamingo_WrapperSimpleEd L) (args : List PyObj)
    (h : parseListArg args = none) :
    WrapperSimpleEd_init L self args = Outcome.ret (0, self) := by
  unfold WrapperSimpleEd_init
  rw [h]

/-- When the list size converts to a negative `int`, `return NULL` leaves the object
untouched and the `int` returned is `0`. -/
theorem WrapperSimpleEd_init_negative_size (L : FlamingoLib)
    (self : flamingo_WrapperSimpleEd L) (items : List PyObj)
    (h : toInt32 items.length < 0) :
    WrapperSimpleEd_init L self [PyObj.list items] = Outcome.ret (0, self) := by
  unfold WrapperSimpleEd_init
  rw [parseListArg]
  dsimp only
  rw [if_pos h]

theorem collectBarcodes_strs (corpus : List CppString) :
    collectBarcodes (corpus.map PyObj.str) = some (corpus.map cstring) := by
  induction corpus with
  | nil => rfl
  | cons s rest ih =>
    simp only [List.map_cons, collectBarcodes, PyString_AsString, ih]

/-- On a list of fewer than `2 ^ 31` `str` objects the function builds the three members
from the C strings of the items and returns `0`. -/
theorem WrapperSimpleEd_init_strs (L : FlamingoLib) (self : flamingo_WrapperSimpleEd L)
    (corpus : List CppString) (hn : corpus.length < 2 ^ 31) :
    WrapperSimpleEd_init L self [PyObj.list (corpus.map PyObj.str)] =
      Outcome.ret (0,
        ⟨some (L.newGramGen 2),
         some (L.fillContainer (L.initStatsCollector (L.newContainer true) (L.newGramGen 2))
           (corpus.map cstring)),
         some (L.buildIndex (L.newIndex
           (L.fillContainer (L.initStatsCollector (L.newContainer true) (L.newGramGen 2))
             (corpus.map cstring)) (L.newGramGen 2) true))⟩) := by
  unfold WrapperSimpleEd_init
  rw [parseListArg]
  dsimp only
  have hlen : toInt32 (corpus.map PyObj.str).length = corpus.length := by
    rw [List.length_map]; exact toInt32_of_lt hn
  rw [hlen]
  rw [if_neg (by omega)]
  have htake : (corpus.map PyObj.str).take (Int.toNat (corpus.length : Int))
      = corpus.map PyObj.str := by
    rw [Int.toNat_ofNat]
    exact List.take_of_length_le (by simp)
  rw [htake, collectBarcodes_strs]

theorem cstring_of_not_mem {s : CppString} (h : (0 : UInt8) ∉ s) : cstring s = s := by
  unfold cstring
  rw [List.takeWhile_eq_self_iff]
  intro c hc
  have : c ≠ 0 := fun h0 => h (h0 ▸ hc)
  simpa using this

theorem parseQueryArgs_ok {query : CppString} (ed : ℚ) (hq : (0 : UInt8) ∉ query) :
    parseQueryArgs [PyObj.str query, PyObj.num ed] = some (query, ed) := by
  simp [parseQueryArgs, hq]

/-- The loop fills slot `k` with the C string of the container's string for `ids[k]`. -/
theorem materializeLoop_spec (L : FlamingoLib) (c : L.Container) (ids : List Nat)
    (hlen : ids.length < UINT_MOD) :
    ∀ (fuel i : Nat) (ret : List (Option CppString)), ret.length = ids.length →
      i ≤ ids.length → ids.length - i < fuel →
      (∀ k, k < i → ret.getD k none = some (cstring (L.retrieveString c (ids.getD k 0)))) →
      ∃ r, materializeLoop L (some c) ids fuel i ret = Outcome.ret r ∧
        r.length = ids.length ∧
        ∀ k, k < ids.length →
          r.getD k none = some (cstring (L.retrieveString c (ids.getD k 0))) := by
  intro fuel
  induction fuel with
  | zero => intro i ret _ _ hf; omega
  | succ fuel ih =>
    intro i ret hr hi hf hinv
    rw [materializeLoop]
    by_cases hlt : i < ids.length
    · rw [if_pos hlt]
      have hmod : (i + 1) % UINT_MOD = i + 1 := Nat.mod_eq_of_lt (by omega)
      simp only [hmod]
      apply ih
      · simpa using hr
      · omega
      · omega
      · intro k hk
        by_cases hki : k = i
        · subst hki; exact getD_set_self _ _ (by omega)
        · rw [getD_set_of_ne _ _ (Ne.symm hki)]
          exact hinv k (by omega)
    · rw [if_neg hlt]
      refine ⟨ret, rfl, hr, ?_⟩
      intro k hk
      exact hinv k (by omega)

theorem list_eq_map_of_getD {α β : Type} (f : α → β) (d : α) (e : β) (ids : List α)
    (r : List β) (hl : r.length = ids.length)
    (h : ∀ k, k < ids.length → r.getD k e = f (ids.getD k d)) : r = ids.map f := by
  apply List.ext_getElem (by simpa using hl)
  intro k h1 h2
  have hk : k < ids.length := by omega
  have := h k hk
  rw [List.getD_eq_getElem _ _ h1, List.getD_eq_getElem _ _ hk] at this
  simpa using this

/-- With the index and the container set, a parsed call returns the list of the C strings
of the container's strings for the ids of the library search, in their order. -/
theorem WrapperSimpleEd_search_eq (L : FlamingoLib) (self : flamingo_WrapperSimpleEd L)
    (index : L.Index) (c : L.Container) (query : CppString) (ed : ℚ) (fuel : Nat)
    (hindex : self.index = some index) (hc : self.strContainer = some c)
    (hq : (0 : UInt8) ∉ query)
    (hlen : (L.search index query ed).length < 2 ^ 32)
    (hf : (L.search index query ed).length < fuel) :
    WrapperSimpleEd_search L fuel self [PyObj.str query, PyObj.num ed] =
      Outcome.ret (PyResult.list
        ((L.search index query ed).map (fun id => some (cstring (L.retrieveString c id))))) := by
  unfold WrapperSimpleEd_search
  rw [parseQueryArgs_ok ed hq]
  simp only [hindex, hc]
  obtain ⟨r, hr, hrl, hrv⟩ := materializeLoop_spec L c (L.search index query ed)
    (by rw [UINT_MOD_eq]; omega) fuel 0 (List.replicate (L.search index query ed).length none)
    (by simp) (Nat.zero_le _) (by omega) (by intro k hk; omega)
  rw [hr]
  simp only
  rw [list_eq_map_of_getD (fun id => some (cstring (L.retrieveString c id))) 0 none _ r hrl hrv]

/-- On two `str` without NUL byte and of lengths below `2 ^ 32 - 1`, `flamingo_distance`
returns the Python integer of the recurrence. -/
theorem flamingo_distance_eq (a b : CppString) (fuel : Nat)
    (ha0 : (0 : UInt8) ∉ a) (hb0 : (0 : UInt8) ∉ b)
    (ha : a.length < 2 ^ 32 - 1) (hb : b.length < 2 ^ 32 - 1)
    (hf : max a.length (b.length + 1) < fuel) :
    flamingo_distance fuel [PyObj.str a, PyObj.str b] = Outcome.ret (some (lev a b)) := by
  unfold flamingo_distance
  have hp : parseTwoStrings [PyObj.str a, PyObj.str b] = some (a, b) := by
    simp [parseTwoStrings, ha0, hb0]
  rw [hp]
  simp only
  rw [cstring_of_not_mem ha0, cstring_of_not_mem hb0,
    levenshtein_distance_eq_lev a b fuel ha hb hf]

theorem flamingo_distance_flaw_lawn :
    flamingo_distance 6 [PyObj.str flaw, PyObj.str lawn] = Outcome.ret (some 2) := by
  rw [flamingo_distance_eq flaw lawn 6 (by decide) (by decide) (by decide) (by decide)
    (by decide)]
  have : lev flaw lawn = 2 := by decide
  rw [this]

end Binding

/-! ## The binding: the claims -/

section BindingClaims

theorem WrapperSimpleEd_init_kitten :
    WrapperSimpleEd_init specLib (newObject specLib)
      [PyObj.list (kittenCorpus.map PyObj.str)] = Outcome.ret (0, kittenObject) := by
  rw [WrapperSimpleEd_init_strs specLib _ kittenCorpus (by decide)]
  rfl

/-- C6 as stated fails: given the empty list, `WrapperSimpleEd_init` returns `0`, the
success status of an initialiser. -/
theorem WrapperSimpleEd_init_empty_list_succeeds :
    ∃ h, WrapperSimpleEd_init specLib (newObject specLib) [PyObj.list []] =
      Outcome.ret (0, h) :=
  ⟨_, WrapperSimpleEd_init_strs specLib (newObject specLib) [] (by decide)⟩

/-- C6, amended: given an empty list, `WrapperSimpleEd_init` validates nothing: it sets
`gramGen`, `strContainer` (filled with no string) and `index` (built) and returns `0`,
whatever the library and the object. -/
theorem WrapperSimpleEd_init_empty_list (L : FlamingoLib)
    (self : flamingo_WrapperSimpleEd L) :
    WrapperSimpleEd_init L self [PyObj.list []] =
      Outcome.ret (0,
        ⟨some (L.newGramGen 2),
         some (L.fillContainer (L.initStatsCollector (L.newContainer true) (L.newGramGen 2))
           []),
         some (L.buildIndex (L.newIndex
           (L.fillContainer (L.initStatsCollector (L.newContainer true) (L.newGramGen 2))
             []) (L.newGramGen 2) true))⟩) :=
  WrapperSimpleEd_init_strs L self [] (by decide)

/-- C7 as stated fails: on the object built for the kitten corpus, the query "kitten" and
the threshold `-1`, `WrapperSimpleEd_search` returns a list (the empty one), not an
error. -/
theorem WrapperSimpleEd_search_negative_returns_list :
    WrapperSimpleEd_search specLib 1 kittenObject [PyObj.str kitten, PyObj.num (-1)] =
      Outcome.ret (PyResult.list []) := by
  have hs : specLib.search kittenIndex kitten (-1) = [] := by decide
  rw [WrapperSimpleEd_search_eq specLib kittenObject kittenIndex ⟨kittenCorpus⟩ kitten (-1) 1
    rfl rfl (by decide) (by rw [hs]; decide) (by rw [hs]; decide), hs]
  rfl

/-- C7, amended: a threshold below `0` is not rejected.  With the index and the container
set and a query without NUL byte, the call passes the threshold to the library search and
returns the list of the strings for the ids that the search yields (fewer than `2 ^ 32`),
whatever the library. -/
theorem WrapperSimpleEd_search_negative_threshold (L : FlamingoLib)
    (self : flamingo_WrapperSimpleEd L) (index : L.Index) (c : L.Container)
    (query : CppString) (ed : ℚ) (fuel : Nat)
    (hindex : self.index = some index) (hc : self.strContainer = some c)
    (hq : (0 : UInt8) ∉ query) (_hneg : ed < 0)
    (hlen : (L.search index query ed).length < 2 ^ 32)
    (hf : (L.search index query ed).length < fuel) :
    WrapperSimpleEd_search L fuel self [PyObj.str query, PyObj.num ed] =
      Outcome.ret (PyResult.list
        ((L.search index query ed).map (fun id => some (cstring (L.retrieveString c id))))) :=
  WrapperSimpleEd_search_eq L self index c query ed fuel hindex hc hq hlen hf

/-- The amended C7 at the kitten corpus, the query "bitten" and the threshold `-2`. -/
theorem WrapperSimpleEd_search_negative_threshold_witness :
    (0 : UInt8) ∉ bitten ∧ (-2 : ℚ) < 0 ∧
      WrapperSimpleEd_search specLib 5 kittenObject [PyObj.str bitten, PyObj.num (-2)] =
        Outcome.ret (PyResult.list
          ((specLib.search kittenIndex bitten (-2)).map
            (fun id => some (cstring (specLib.retrieveString ⟨kittenCorpus⟩ id))))) := by
  have hs : specLib.search kittenIndex bitten (-2) = [] := by decide
  exact ⟨by decide, by norm_num,
    WrapperSimpleEd_search_negative_threshold specLib kittenObject kittenIndex ⟨kittenCorpus⟩
      bitten (-2) 5 rfl rfl (by decide) (by norm_num) (by rw [hs]; decide)
      (by rw [hs]; decide)⟩

/-- C8, the code at two failing inputs: called with one argument that is not a list, and
called with a list of `2 ^ 31` items (whose size converts to a negative `int`),
`WrapperSimpleEd_init` returns `0`, the success status, and leaves the members of the
object null, the index unbuilt. -/
theorem WrapperSimpleEd_init_success_without_index :
    WrapperSimpleEd_init specLib (newObject specLib) [PyObj.num 42] =
        Outcome.ret (0, newObject specLib) ∧
      WrapperSimpleEd_init specLib (newObject specLib)
          [PyObj.list (List.replicate (2 ^ 31) (PyObj.str []))] =
        Outcome.ret (0, newObject specLib) ∧
      (newObject specLib).index = none ∧ (newObject specLib).strContainer = none ∧
      (newObject specLib).gramGen = none :=
  ⟨WrapperSimpleEd_init_parse_failure specLib _ _ rfl,
    WrapperSimpleEd_init_negative_size specLib _ _
      (by rw [List.length_replicate]; exact toInt32_neg_of_ge (le_refl _) (by norm_num)),
    rfl, rfl, rfl⟩

/-- C9: with the index and the container set, a query without NUL byte and `ids` the
sequence of fewer than `2 ^ 32` identifiers that the library search produces, of strings
that are C strings (as all strings stored by `WrapperSimpleEd_init` are),
`WrapperSimpleEd_search` returns the list whose `i`-th element is the container's string
for `ids[i]`: `length(ids)` elements, in the same order. -/
theorem WrapperSimpleEd_search_materializes (L : FlamingoLib)
    (self : flamingo_WrapperSimpleEd L) (index : L.Index) (c : L.Container)
    (query : CppString) (ed : ℚ) (ids : List Nat) (fuel : Nat)
    (hindex : self.index = some index) (hc : self.strContainer = some c)
    (hq : (0 : UInt8) ∉ query) (hids : L.search index query ed = ids)
    (hlen : ids.length < 2 ^ 32)
    (hnul : ∀ id, id ∈ ids → (0 : UInt8) ∉ L.retrieveString c id)
    (hf : ids.length < fuel) :
    WrapperSimpleEd_search L fuel self [PyObj.str query, PyObj.num ed] =
        Outcome.ret (PyResult.list (ids.map (fun id => some (L.retrieveString c id)))) ∧
      (ids.map (fun id => some (L.retrieveString c id))).length = ids.length := by
  subst hids
  refine ⟨?_, by simp⟩
  rw [WrapperSimpleEd_search_eq L self index c query ed fuel hindex hc hq hlen hf]
  congr 2
  apply List.map_congr_left
  intro id hid
  rw [cstring_of_not_mem (hnul id hid)]

/-- C9 at the kitten corpus, the query "kitten" and the threshold `1`: the ids are `0` and
`2`, the list returned is "kitten", "bitten". -/
theorem WrapperSimpleEd_search_materializes_witness :
    specLib.search kittenIndex kitten 1 = [0, 2] ∧
      WrapperSimpleEd_search specLib 3 kittenObject [PyObj.str kitten, PyObj.num 1] =
        Outcome.ret (PyResult.list [some kitten, some bitten]) := by
  have hs : specLib.search kittenIndex kitten 1 = [0, 2] := by decide
  refine ⟨hs, ?_⟩
  exact (WrapperSimpleEd_search_materializes specLib kittenObject kittenIndex ⟨kittenCorpus⟩
    kitten 1 [0, 2] 3 rfl rfl (by decide) hs (by decide) (by decide) (by decide)).1

end BindingClaims

/-! ## Grams: the count filter loses no match -/

section Grams

variable {α : Type}

end Grams

/-! ## Search over a corpus loaded by `WrapperSimpleEd_init` -/

section Search

end Search

/-! ## Search over a loaded corpus: the claim -/

section SearchClaim

end SearchClaim

end Flamingo
